import Mathlib

/-!
Verification of the statement-parsing core of extrato_parser.py
(noise classifier, amount cleaner, transaction normalizer, result scorer,
universal orchestrator), via a shallow embedding in Lean 4.

Conventions of the embedding:
- Python strings are Lean String (processed as List Char);
- Python re patterns are embedded with a small executable matching engine
  (continuation-passing matcher with backtracking over alternatives,
  optional parts and character-class repetitions, word boundaries,
  negative lookahead and anchors), and each pattern of the source is
  transcribed as a pattern value of that engine;
- Python float values reachable in this code are decimal numbers with at
  most two fractional digits; they are modelled as rationals;
- functions that can raise are modelled with Except / Option.
-/

namespace Extrato

/-! ## Character classes (Python semantics, restricted to the alphabet
used by this repository: ASCII plus the accented letters appearing in the
source patterns). -/

/-- Characters treated as whitespace by Python str.strip and by the regex
class backslash-s (ASCII whitespace plus the no-break space). -/
def isSpaceCh (c : Char) : Bool :=
  c = ' ' || c = '\t' || c = '\n' || c = '\r' ||
  c = '\x0b' || c = '\x0c' || c = ' '

/-- ASCII decimal digit, the regex class backslash-d. -/
def isDigitCh (c : Char) : Bool := c.isDigit

/-- Accented letters appearing in the source file (lower case). -/
def accentedLower : List Char :=
  ['á', 'à', 'â', 'ã', 'ç', 'é', 'ê', 'í', 'ó', 'ô', 'õ', 'ú', 'ü']

/-- Accented letters appearing in the source file (upper case). -/
def accentedUpper : List Char :=
  ['Á', 'À', 'Â', 'Ã', 'Ç', 'É', 'Ê', 'Í', 'Ó', 'Ô', 'Õ', 'Ú', 'Ü']

/-- Word character for the regex boundary backslash-b: alphanumeric or
underscore (Unicode letters restricted to the accented set above). -/
def isWordCh (c : Char) : Bool :=
  c.isAlphanum || c = '_' || accentedLower.contains c || accentedUpper.contains c

/-- Python str.lower on the alphabet used here. -/
def lowerCh (c : Char) : Char :=
  if 'A' ≤ c && c ≤ 'Z' then Char.ofNat (c.toNat + 32)
  else if c = 'Á' then 'á' else if c = 'À' then 'à' else if c = 'Â' then 'â'
  else if c = 'Ã' then 'ã' else if c = 'Ç' then 'ç' else if c = 'É' then 'é'
  else if c = 'Ê' then 'ê' else if c = 'Í' then 'í' else if c = 'Ó' then 'ó'
  else if c = 'Ô' then 'ô' else if c = 'Õ' then 'õ' else if c = 'Ú' then 'ú'
  else if c = 'Ü' then 'ü' else c

/-- Python str.upper on the alphabet used here (only ever applied to the
direction flags, which are ASCII). -/
def upperCh (c : Char) : Char :=
  if 'a' ≤ c && c ≤ 'z' then Char.ofNat (c.toNat - 32) else c

/-- Python str.strip: remove leading and trailing whitespace. -/
def pyStrip (s : String) : String :=
  ⟨((s.data.dropWhile isSpaceCh).reverse.dropWhile isSpaceCh).reverse⟩

/-- Python str.lower. -/
def pyLower (s : String) : String := ⟨s.data.map lowerCh⟩

/-- Python str.upper. -/
def pyUpper (s : String) : String := ⟨s.data.map upperCh⟩

/-! ## A small executable regex engine.

A pattern is a predicate transformer: given the current state (previous
character, for word boundaries, and remaining input) and a continuation,
it reports whether the remainder of the input can be consumed so that the
continuation accepts.  Disjunction over the possible consumptions gives
the usual backtracking semantics of the re module for the constructs used
by the source file. -/

/-- Matching state: previously consumed character (none at the very start
of the string) and remaining characters. -/
structure MSt where
  prev : Option Char
  rest : List Char

abbrev Pat := MSt → (MSt → Bool) → Bool

/-- The empty pattern. -/
def pEps : Pat := fun st k => k st

/-- A single character of a class. -/
def pCls (p : Char → Bool) : Pat := fun st k =>
  match st.rest with
  | [] => false
  | c :: cs => p c && k ⟨some c, cs⟩

/-- Sequencing. -/
def pSeq (a b : Pat) : Pat := fun st k => a st fun st2 => b st2 k

/-- Concatenation of a list of patterns. -/
def pCat (l : List Pat) : Pat := l.foldr pSeq pEps

/-- A literal string. -/
def pLit (s : String) : Pat :=
  pCat (s.data.map fun c => pCls fun x => x = c)

/-- Alternation over a list of branches (the regex bar). -/
def pAlt (l : List Pat) : Pat := fun st k => l.any fun p => p st k

/-- An optional part (the regex question mark). -/
def pOpt (a : Pat) : Pat := fun st k => a st k || k st

/-- Helper for class repetition: we have just consumed character c and the
remaining input is the first argument; either consume further characters
of the class or stop here. -/
def many1Go (p : Char → Bool) (k : MSt → Bool) : List Char → Char → Bool
  | cs, c =>
    (match cs with
     | c2 :: cs2 => p c2 && many1Go p k cs2 c2
     | [] => false) || k ⟨some c, cs⟩

/-- One or more characters of a class (the regex plus), with backtracking
over the number of consumed characters. -/
def pMany1 (p : Char → Bool) : Pat := fun st k =>
  match st.rest with
  | [] => false
  | c :: cs => p c && many1Go p k cs c

/-- Zero or more characters of a class (the regex star). -/
def pMany0 (p : Char → Bool) : Pat := fun st k => pMany1 p st k || k st

/-- Word boundary, the regex backslash-b. -/
def pWB : Pat := fun st k =>
  (match st.prev, st.rest with
   | none, [] => false
   | none, c :: _ => isWordCh c
   | some c, [] => isWordCh c
   | some c, c2 :: _ => isWordCh c != isWordCh c2) && k st

/-- Negative lookahead. -/
def pNla (a : Pat) : Pat := fun st k =>
  !(a st fun _ => true) && k st

/-- Start-of-string anchor (the regex caret, no MULTILINE flag). -/
def pBos : Pat := fun st k => st.prev.isNone && k st

/-- End-of-string anchor (the regex dollar; no input here ever carries a
trailing newline, see the uses below). -/
def pEos : Pat := fun st k => st.rest.isEmpty && k st

/-- Attempt a match starting at every position, as re.search does. -/
def searchGo (pat : Pat) : Option Char → List Char → Bool
  | prev, rest =>
    pat ⟨prev, rest⟩ (fun _ => true) ||
    (match rest with
     | [] => false
     | c :: cs => searchGo pat (some c) cs)

/-- Model of re.search (with the anchors in the pattern, also of
re.match): does the pattern match anywhere in the string? -/
def reSearch (pat : Pat) (s : String) : Bool := searchGo pat none s.data

/-! Short names for the pattern pieces used by the source. -/

/-- The regex piece backslash-s plus. -/
def ws1 : Pat := pMany1 isSpaceCh

/-- The regex piece backslash-s star. -/
def ws0 : Pat := pMany0 isSpaceCh

/-- The regex piece backslash-d plus. -/
def dig1 : Pat := pMany1 isDigitCh

/-- A single literal character. -/
def pch (c : Char) : Pat := pCls fun x => x = c

/-- A character out of an explicit list. -/
def oneOf (l : List Char) : Pat := pCls fun x => l.contains x

end Extrato

namespace Extrato

/-! ## The noise classifier linha_parece_sujo.

Each regex literal of the source is transcribed into a pattern of the
engine above, in the same order. -/

/-- The list excecoes_regex of the source: patterns that must be
preserved (checked first; a match means the line is NOT noise). -/
def excecoesRegex : List Pat :=
  [ pCat [pWB, pLit "iof", pWB],
    pCat [pWB, pLit "juros", pWB, pNla (pCat [ws1, pLit "morat"])],
    pCat [pWB, pLit "tarifa", pWB],
    pCat [pWB, pLit "encargos", pWB],
    pCat [pWB, pLit "tributo", pWB],
    pCat [pWB, pLit "imposto", pWB],
    pCat [pWB, pLit "pagamento", ws1, pOpt (pCat [pLit "de", ws1]),
          pAlt [pLit "boleto", pLit "conta", pLit "fatura", pLit "darf", pLit "gps"], pWB],
    pCat [pWB, pLit "transfer", oneOf ['e', 'ê'], pLit "ncia", ws1,
          pAlt [pLit "recebida", pLit "enviada", pLit "ted", pLit "doc"], pWB],
    pCat [pWB, pLit "pix", ws1,
          pAlt [pLit "recebido", pLit "enviado", pLit "emit", pLit "receb"], pWB],
    pCat [pWB, pLit "ted", ws1, pAlt [pLit "recebid", pLit "enviad"], pWB],
    pCat [pWB, pLit "doc", ws1, pAlt [pLit "recebid", pLit "enviad"], pWB],
    pCat [pWB, pLit "cheque", ws1, pAlt [pLit "compensado", pLit "devolvido"], pWB],
    pCat [pWB, pch 'c', oneOf ['o', 'ó'], pLit "digo", ws1, dig1],
    pCat [pWB, pLit "deb", ws1, pLit "conv", pWB],
    pCat [pWB, pLit "deb", ws1, pLit "tit", pWB],
    pCat [pWB, pLit "deb", ws1, pLit "parc", pWB] ]

/-- The list padroes_lixo of the source: junk patterns (a match means the
line IS noise, unless an exception matched first). -/
def padroesLixo : List Pat :=
  [ pCat [pWB, pch 's', ws0, pch 'a', ws0, pch 'l', ws0, pch 'd', ws0, pch 'o', pWB],
    pCat [pWB, pLit "saldo", ws0,
          pAlt [pLit "anterior", pCat [pLit "do", ws1, pLit "dia"], pLit "total",
                pLit "atual", pLit "bloqueado",
                pCat [pLit "dispon", oneOf ['i', 'í'], pLit "vel"],
                pLit "parcial", pLit "inicial", pLit "final",
                pCat [pLit "em", ws1, pLit "c/c"]], pWB],
    pCat [pWB, pLit "sdo", ws1, pAlt [pLit "cta", pLit "apl", pLit "conta"], pWB],
    pCat [pWB, pLit "detalhamento", pWB],
    pCat [pWB, pLit "extrato", pWB],
    pCat [pWB, pLit "cliente", pWB],
    pCat [pWB, pLit "conta", ws1, pLit "corrente", ws0, pch '|', ws0, pLit "movimenta"],
    pCat [pWB, pLit "limite", pWB],
    pCat [pWB, pLit "investimentos", pWB],
    pCat [pWB, pLit "dispon", oneOf ['i', 'í'], pLit "vel", pWB],
    pCat [pWB, pLit "bloqueado", pWB],
    pCat [pBos, ws0, pLit "total", ws0, pOpt (pch 'r'), ws0, pOpt (pch '$'), ws0,
          pMany1 (fun c => isDigitCh c || c = '.' || c = ','), ws0, pEos],
    pCat [pWB, pLit "total", ws1, pOpt (pCat [pLit "de", ws1]),
          pAlt [pLit "entradas", pCat [pLit "sa", oneOf ['i', 'í'], pLit "das"],
                pCat [pLit "cr", oneOf ['é', 'e'], pLit "ditos"],
                pCat [pLit "d", oneOf ['é', 'e'], pLit "bitos"]], pWB],
    pCat [pWB, pLit "resumo", pWB],
    pCat [pWB, pLit "fale", ws0, pLit "conosco", pWB],
    pCat [pWB, pLit "ouvidoria", pWB],
    pCat [pWB, pLit "para", ws1, pLit "demais", ws1, pLit "siglas", pWB],
    pCat [pWB, pLit "notas", ws1, pLit "explicativas", pWB],
    pCat [pWB, pLit "totalizador", pWB],
    pCat [pWB, pLit "aplicações", ws1, pLit "automáticas", pWB],
    pCat [pWB, pLit "valor", ws1, pch '(', pch 'r', pch '$', pch ')', pWB],
    pCat [pWB, pLit "documento", pWB],
    pCat [pWB, pLit "descri", oneOf ['c', 'ç'], oneOf ['a', 'ã'], pch 'o', pWB],
    pCat [pWB, pLit "cr", oneOf ['e', 'é'], pLit "ditos", pWB],
    pCat [pWB, pch 'd', oneOf ['e', 'é'], pLit "bitos", pWB],
    pCat [pWB, pLit "movimenta", oneOf ['c', 'ç'], oneOf ['a', 'ã'], pch 'o', pWB],
    pCat [pWB, pch 'p', oneOf ['a', 'á'], pLit "gina", pWB],
    pCat [pWB, pLit "data", ws1, pLit "lan", oneOf ['c', 'ç'], pLit "amento", pWB],
    pCat [pWB, pLit "complemento", pWB],
    pCat [pWB, pLit "central", ws1, pLit "de", ws1, pLit "suporte", pWB],
    pCat [pWB, pLit "conta", ws1, pLit "corrente", ws0, pch '|', ws0,
          pLit "movimenta", oneOf ['c', 'ç'], oneOf ['a', 'ã'], pch 'o', pWB],
    pCat [pWB, pLit "valores", ws1, pLit "em", ws1, pch 'r', pch '$', pWB],
    pCat [pWB, pLit "per", oneOf ['i', 'í'], pLit "odo", ws1, pLit "de", pWB],
    pCat [pWB, pLit "saldo", ws0, pch '+', ws0, pLit "limite", pWB],
    pCat [pWB, pLit "cobran", oneOf ['c', 'ç'], pch 'a', ws1, pch 'd', oneOf ['0', '1'], pWB],
    pCat [pWB, pLit "cheque", ws1, pLit "empresarial", pWB],
    pCat [pWB, pLit "vencimento", ws1, pLit "cheque", pWB] ]

/-- Does any exception pattern match the (stripped, lowered) text? -/
def anyExcecao (texto : String) : Bool :=
  excecoesRegex.any fun p => reSearch p texto

/-- Does any junk pattern match the (stripped, lowered) text? -/
def anyLixo (texto : String) : Bool :=
  padroesLixo.any fun p => reSearch p texto

/-- The function linha_parece_sujo of the source, on string inputs.
The source first returns True when the line is empty (the Python
truthiness test on a string), then strips and lowers the line, returns
False when an exception pattern matches, and otherwise reports whether a
junk pattern matches. -/
def linha_parece_sujo (linha : String) : Bool :=
  if linha = "" then true
  else
    let texto := pyLower (pyStrip linha)
    if anyExcecao texto then false else anyLixo texto

/-- The same entry point with the possibility of a non-string (null)
argument: the source tests not isinstance(linha, str) and returns True
for such inputs. -/
def linha_parece_sujoPy : Option String → Bool
  | none => true
  | some s => linha_parece_sujo s

/-- The entry point seen as a possibly-raising Python call: the body
contains no raising operation, so the result is always ok. -/
def linha_parece_sujoE (o : Option String) : Except String Bool :=
  Except.ok (linha_parece_sujoPy o)

end Extrato

namespace Extrato

/-! ## The amount cleaner clean_value_str.

The source strips the string, deletes every occurrence of R$, of the
no-break space, of the space, of the minus sign and of the dot, rewrites
commas to dots, and then accepts exactly the strings matching the regex
caret digits-plus (dot one-or-two-digits) optional dollar, returning the
transformed string itself. -/

/-- Delete every occurrence of the two-character substring R$ (Python
str.replace, left to right, non overlapping). -/
def delRS : List Char → List Char
  | 'R' :: '$' :: rest => delRS rest
  | c :: rest => c :: delRS rest
  | [] => []

/-- The chain of replace calls of clean_value_str, in source order:
delete R$, the no-break space, the space, the minus sign and the dot,
then rewrite commas to dots. -/
def codeTransform (s : String) : String :=
  ⟨((((((delRS (pyStrip s).data).filter fun c => c ≠ ' ').filter
      fun c => c ≠ ' ').filter fun c => c ≠ '-').filter
      fun c => c ≠ '.').map fun c => if c = ',' then '.' else c)⟩

/-- The validation regex of clean_value_str: start, one or more digits,
optionally a dot followed by one or two digits, end. -/
def valorRegexPat : Pat :=
  pCat [pBos, dig1, pOpt (pCat [pch '.', pCls isDigitCh, pOpt (pCls isDigitCh)]), pEos]

/-- The function clean_value_str of the source: empty (falsy) input gives
None, otherwise the transformed string is returned when it matches the
validation regex. -/
def clean_value_str (s : String) : Option String :=
  if s = "" then none
  else
    let t := codeTransform s
    if reSearch valorRegexPat t then some t else none

/-! ## Python float conversion on the reachable strings.

The strings fed to float() in normalizar_transacoes all come out of
clean_value_str, hence have the shape digits, optionally followed by a
dot and one or two digits. -/

/-- Numeric value of a list of ASCII digits. -/
def digitsToNat (l : List Char) : Nat :=
  l.foldl (fun a c => 10 * a + (c.toNat - 48)) 0

/-- Decompose a decimal string into integer part, fractional part and
number of fractional digits. -/
def numParts (l : List Char) : Option (Nat × Nat × Nat) :=
  if (l.takeWhile isDigitCh).isEmpty then none
  else
    match l.dropWhile isDigitCh with
    | [] => some (digitsToNat (l.takeWhile isDigitCh), 0, 0)
    | '.' :: fs =>
      if fs.isEmpty || decide (2 < fs.length) || !fs.all isDigitCh then none
      else some (digitsToNat (l.takeWhile isDigitCh), digitsToNat fs, fs.length)
    | _ => none

/-- Rational value of a decomposed decimal string: integer part plus
fractional part over ten to the number of fractional digits. -/
def ratOfParts (p : Nat × Nat × Nat) : ℚ :=
  (p.1 : ℚ) + (p.2.1 : ℚ) / 10 ^ p.2.2

/-- Model of float() on the decimal strings reachable in this code. -/
def pyFloat (s : String) : Option ℚ :=
  (numParts s.data).map ratOfParts

/-- Python str.startswith, on whole strings. -/
def pyStartswith (s p : String) : Bool :=
  s.data.take p.data.length = p.data

/-! ## Calendar dates.

pd.to_datetime with format percent-d slash percent-m slash percent-Y and
errors coerce accepts a one-or-two digit day in 1..31, a one-or-two digit
month in 1..12 and an exactly four digit year, validates the day against
the month length, and yields NaT (here: none) otherwise; dates outside
the pandas Timestamp range (1677-09-22 to 2262-04-11 at midnight) also
coerce to NaT.  Ordinals count days from a fixed origin (proleptic
Gregorian, day 1 = 01/01/0001). -/

/-- Gregorian leap year. -/
def isLeap (y : Nat) : Bool := (y % 4 = 0 && y % 100 ≠ 0) || y % 400 = 0

/-- Length of a month. -/
def daysInMonth (y m : Nat) : Nat :=
  if m = 2 then (if isLeap y then 29 else 28)
  else if m = 4 || m = 6 || m = 9 || m = 11 then 30
  else 31

/-- Days of year y before month m. -/
def daysBeforeMonth (y m : Nat) : Nat :=
  (List.range (m - 1)).foldl (fun a i => a + daysInMonth y (i + 1)) 0

/-- Proleptic Gregorian ordinal of a date. -/
def toOrdinal (y m d : Nat) : Nat :=
  365 * (y - 1) + (y - 1) / 4 - (y - 1) / 100 + (y - 1) / 400 + daysBeforeMonth y m + d

/-- Parse a date string in day/month/four-digit-year form, with the
validations described above; returns the ordinal. -/
def parseDateOrd (s : String) : Option Nat :=
  let p1 := s.data.span isDigitCh
  match p1.2 with
  | '/' :: r2 =>
    let p2 := r2.span isDigitCh
    (match p2.2 with
     | '/' :: r4 =>
       let p3 := r4.span isDigitCh
       let d := digitsToNat p1.1
       let m := digitsToNat p2.1
       let y := digitsToNat p3.1
       if p3.2.isEmpty && !p1.1.isEmpty && decide (p1.1.length ≤ 2) &&
          !p2.1.isEmpty && decide (p2.1.length ≤ 2) && decide (p3.1.length = 4) &&
          decide (1 ≤ d) && decide (1 ≤ m) && decide (m ≤ 12) && decide (1 ≤ y) &&
          decide (d ≤ daysInMonth y m) &&
          decide (toOrdinal 1677 9 22 ≤ toOrdinal y m d) &&
          decide (toOrdinal y m d ≤ toOrdinal 2262 4 11)
       then some (toOrdinal y m d) else none
     | _ => none)
  | _ => none

/-! ## Candidate records and normalized rows. -/

/-- A raw candidate produced by an extractor: the dict with keys Data,
Histórico, Valor, Tipo built by every processador of the source. -/
structure RawTrans where
  Data : String
  Historico : String
  Valor : String
  Tipo : String
deriving DecidableEq

/-- A normalized row: the four output columns plus the auxiliary Data_dt
column (kept by normalizar_transacoes, used by avaliar_resultado). -/
structure Row where
  Data : String
  Historico : String
  Valor : ℚ
  Tipo : String
  dataDt : Nat
deriving DecidableEq

/-- Ordering used by sort_values on the Data_dt column. -/
def rowLe (a b : Row) : Prop := a.dataDt ≤ b.dataDt

instance : DecidableRel rowLe := fun a b => Nat.decLe a.dataDt b.dataDt

instance : IsTotal Row rowLe := ⟨fun a b => Nat.le_total a.dataDt b.dataDt⟩

instance : IsTrans Row rowLe := ⟨fun _ _ _ => Nat.le_trans⟩

/-- Per-candidate part of normalizar_transacoes: clean the amount string
(drop the row when invalid), convert to float, map the direction flag
(upper-cased flag starting with D gives D, anything else C), parse the
date (drop the row when unparsable).  The source performs these steps
column-wise on the whole frame; per candidate the composition is the
same. -/
def candToRow (t : RawTrans) : Option Row :=
  (clean_value_str t.Valor).bind fun v =>
  (pyFloat v).bind fun q =>
  (parseDateOrd t.Data).map fun o =>
  { Data := t.Data, Historico := t.Historico, Valor := q,
    Tipo := if pyStartswith (pyUpper t.Tipo) "D" then "D" else "C",
    dataDt := o }

/-- The function normalizar_transacoes of the source.  An empty candidate
list gives the empty table; the astype(float) call sits in a try block
whose except branch returns an empty frame (it never fires on the strings
accepted by clean_value_str, but the guard is modelled faithfully);
surviving rows are sorted ascending by parsed date.  The source sorts
with the pandas default sort kind; the embedding uses an insertion sort,
which produces the same ascending order (tie order of the library sort is
not specified by the source, see the notes on claim C4). -/
def normalizar (trans : List RawTrans) : List Row :=
  if trans.isEmpty then []
  else if (trans.filterMap fun t => (clean_value_str t.Valor).map fun v => (t, v)).any
      (fun p => (pyFloat p.2).isNone) then []
  else List.insertionSort rowLe (trans.filterMap candToRow)

/-! ## The scorer avaliar_resultado. -/

/-- The Data_dt column. -/
def dataDts (df : List Row) : List Nat := df.map fun r => r.dataDt

/-- Maximum of a list of naturals (0 on the empty list, which the scorer
never queries). -/
def listMax : List Nat → Nat
  | [] => 0
  | x :: xs => max x (listMax xs)

/-- Minimum of a nonempty list of naturals. -/
def listMin : List Nat → Nat
  | [] => 0
  | [x] => x
  | x :: y :: xs => min x (listMin (y :: xs))

/-- dias_cobertos of the source: date span in days, inclusive. -/
def spanDias (df : List Row) : Nat :=
  listMax (dataDts df) - listMin (dataDts df) + 1

/-- The volume and date-span terms of the score (weights 10 and 5). -/
def scoreVolSpan (df : List Row) : ℚ :=
  if df.isEmpty then 0
  else (df.length : ℚ) * 10 + (spanDias df : ℚ) * 5

/-- Mean of the Valor column. -/
def mediaValor (df : List Row) : ℚ :=
  (df.map fun r => r.Valor).sum / (df.length : ℚ)

/-- Sample variance (pandas default, denominator n - 1) of the Valor
column. -/
def varValor (df : List Row) : ℚ :=
  ((df.map fun r => (r.Valor - mediaValor df) ^ 2).sum) / ((df.length : ℚ) - 1)

/-- Proportion of rows whose Tipo equals the given flag. -/
def propTipo (t : String) (df : List Row) : ℚ :=
  ((df.filter fun r => r.Tipo = t).length : ℚ) / (df.length : ℚ)

/-- The function avaliar_resultado of the source: 0 on the empty table,
otherwise rows times 10, plus covered days times 5, plus (when there are
at least two rows) the variance damped by 3e-6, plus the debit/credit
balance bonus times 50. -/
def avaliar (df : List Row) : ℚ :=
  if df.isEmpty then 0
  else
    scoreVolSpan df
    + (if 1 < df.length then varValor df * (3 / 1000000) else 0)
    + (1 - |propTipo "D" df - propTipo "C" df|) * 50

/-! ## The universal orchestrator. -/

/-- An extractor as run inside the try block of the orchestrator loop: it
may raise (error) or produce raw candidates. -/
abbrev Extrator := String → Except String (List RawTrans)

/-- Accumulator of the per-extractor loop of
processar_extrato_universal: best table, best score, best processor
label. -/
structure UnivState where
  melhor_df : List Row
  melhor_score : ℚ
  melhor_processador : String
deriving DecidableEq

/-- One iteration of the loop: on an exception the except branch
continues with the state unchanged; otherwise the candidates are
normalized and scored, and the best state is updated on a strictly
larger score. -/
def univStep (texto : String) (st : UnivState) (p : String × Extrator) : UnivState :=
  match p.2 texto with
  | Except.error _ => st
  | Except.ok trs =>
    let dfAtual := normalizar trs
    let scoreAtual := avaliar dfAtual
    if st.melhor_score < scoreAtual then ⟨dfAtual, scoreAtual, p.1⟩ else st

/-- The per-extractor arbitration loop of processar_extrato_universal,
over a registry of named extractors (PROCESSADORES), starting from the
empty frame, score -1.0 and the label NENHUM.  The enclosing function
returns the best frame and prints the label. -/
def processar_extrato_universal (procs : List (String × Extrator))
    (texto : String) : UnivState :=
  procs.foldl (univStep texto) ⟨[], -1, "NENHUM"⟩

end Extrato

namespace Extrato

/-! ## Evaluation and structural helpers. -/

/-- Evaluate candToRow once the amount string, its decimal parts and the
date ordinal are known. -/
lemma candToRow_eval (t : RawTrans) (v : String) (p : Nat × Nat × Nat) (o : Nat)
    (h1 : clean_value_str t.Valor = some v)
    (h2 : numParts v.data = some p)
    (h3 : parseDateOrd t.Data = some o) :
    candToRow t = some ⟨t.Data, t.Historico, ratOfParts p,
      if pyStartswith (pyUpper t.Tipo) "D" then "D" else "C", o⟩ := by
  unfold candToRow pyFloat
  rw [h1]
  simp [h2, h3]

/-- Evaluate normalizar on a concrete candidate list whose surviving rows
are already in ascending date order. -/
lemma normalizar_eval (trans : List RawTrans) (rows : List Row)
    (h0 : trans.isEmpty = false)
    (h1 : (trans.filterMap fun t => (clean_value_str t.Valor).map fun v => (t, v)).any
        (fun p => (pyFloat p.2).isNone) = false)
    (h2 : trans.filterMap candToRow = rows)
    (h3 : List.Sorted rowLe rows) :
    normalizar trans = rows := by
  simp only [normalizar, h0, h1, Bool.false_eq_true, if_false, h2]
  exact h3.insertionSort_eq

/-- Every row of a normalized table comes from a candidate accepted by
candToRow. -/
lemma mem_normalizar (trans : List RawTrans) (r : Row) (h : r ∈ normalizar trans) :
    ∃ t ∈ trans, candToRow t = some r := by
  unfold normalizar at h
  split at h
  · cases h
  · split at h
    · cases h
    · rw [List.mem_insertionSort] at h
      exact List.mem_filterMap.1 h

/-- A normalized table is sorted ascending by the parsed date. -/
lemma normalizar_sorted (trans : List RawTrans) :
    List.Sorted rowLe (normalizar trans) := by
  unfold normalizar
  split
  · exact List.sorted_nil
  · split
    · exact List.sorted_nil
    · exact List.sorted_insertionSort rowLe _

/-- Value of a decimal decomposition is non-negative. -/
lemma ratOfParts_nonneg (p : Nat × Nat × Nat) : 0 ≤ ratOfParts p := by
  unfold ratOfParts
  positivity

/-- numParts only yields zero, one or two fractional digits. -/
lemma numParts_frac_le (l : List Char) (p : Nat × Nat × Nat)
    (h : numParts l = some p) : p.2.2 ≤ 2 := by
  unfold numParts at h
  split at h
  · cases h
  · split at h
    · cases h
      simp
    · rename_i fs
      split at h
      · cases h
      · cases h
        rename_i hcond
        simp only [Bool.or_eq_true, not_or, decide_eq_true_eq] at hcond
        simpa using le_of_not_lt hcond.1.2
    · cases h

/-- One hundred times a value with at most two fractional digits is an
integer (denominator one). -/
lemma ratOfParts_den (p : Nat × Nat × Nat) (hk : p.2.2 ≤ 2) :
    ((100 : ℚ) * ratOfParts p).den = 1 := by
  obtain ⟨a, b, k⟩ := p
  unfold ratOfParts
  simp only at hk ⊢
  interval_cases k
  · have : (100 : ℚ) * ((a : ℚ) + (b : ℚ) / 10 ^ 0) = ((100 * a + 100 * b : ℕ) : ℚ) := by
      push_cast
      ring
    rw [this, Rat.den_natCast]
  · have : (100 : ℚ) * ((a : ℚ) + (b : ℚ) / 10 ^ 1) = ((100 * a + 10 * b : ℕ) : ℚ) := by
      push_cast
      ring
    rw [this, Rat.den_natCast]
  · have : (100 : ℚ) * ((a : ℚ) + (b : ℚ) / 10 ^ 2) = ((100 * a + b : ℕ) : ℚ) := by
      push_cast
      ring
    rw [this, Rat.den_natCast]

/-- Field facts about a row accepted by candToRow. -/
lemma candToRow_props (t : RawTrans) (r : Row) (h : candToRow t = some r) :
    0 ≤ r.Valor ∧ (r.Tipo = "C" ∨ r.Tipo = "D") ∧ ((100 : ℚ) * r.Valor).den = 1 ∧
    parseDateOrd r.Data = some r.dataDt ∧ r.Data = t.Data ∧ r.Historico = t.Historico := by
  unfold candToRow pyFloat at h
  cases hv : clean_value_str t.Valor with
  | none => rw [hv] at h; cases h
  | some v =>
    rw [hv] at h
    cases hp : numParts v.data with
    | none => simp [hp] at h
    | some p =>
      simp only [hp, Option.map_some', Option.some_bind] at h
      cases ho : parseDateOrd t.Data with
      | none => rw [ho] at h; cases h
      | some o =>
        rw [ho] at h
        simp only [Option.map_some', Option.some.injEq] at h
        subst h
        refine ⟨ratOfParts_nonneg p, ?_, ratOfParts_den p (numParts_frac_le v.data p hp), by simpa using ho, rfl, rfl⟩
        split
        · right; rfl
        · left; rfl

/-! Minimum and maximum of natural lists, as used by the scorer. -/

lemma le_listMax_of_mem : ∀ (l : List Nat) (a : Nat), a ∈ l → a ≤ listMax l
  | x :: xs, a, h => by
    rcases List.mem_cons.1 h with rfl | h2
    · exact le_max_left _ _
    · exact le_trans (le_listMax_of_mem xs a h2) (le_max_right _ _)

lemma listMin_le_of_mem : ∀ (l : List Nat) (a : Nat), a ∈ l → listMin l ≤ a
  | [x], a, h => by
    rcases List.mem_cons.1 h with rfl | h2
    · exact le_refl _
    · cases h2
  | x :: y :: xs, a, h => by
    rcases List.mem_cons.1 h with rfl | h2
    · exact min_le_left _ _
    · exact le_trans (min_le_right _ _) (listMin_le_of_mem (y :: xs) a h2)

lemma listMin_mem : ∀ (l : List Nat), l ≠ [] → listMin l ∈ l
  | [x], _ => List.mem_singleton.2 rfl
  | x :: y :: xs, _ => by
    have he : listMin (x :: y :: xs) = min x (listMin (y :: xs)) := rfl
    rcases min_choice x (listMin (y :: xs)) with hc | hc
    · rw [he, hc]
      exact List.mem_cons_self _ _
    · rw [he, hc]
      exact List.mem_cons_of_mem x (listMin_mem (y :: xs) (by simp))

lemma listMax_mono (l1 l2 : List Nat) (h : ∀ a ∈ l1, a ∈ l2) :
    listMax l1 ≤ listMax l2 := by
  induction l1 with
  | nil => exact Nat.zero_le _
  | cons x xs ih =>
    refine max_le (le_listMax_of_mem l2 x (h x (List.mem_cons_self _ _))) ?_
    exact ih fun a ha => h a (List.mem_cons_of_mem x ha)

end Extrato

namespace Extrato

/-! ## Orchestrator lemmas. -/

/-- A failing extractor leaves the loop state unchanged (the except
branch of the source just continues). -/
lemma univStep_error (texto : String) (st : UnivState) (q : String × Extrator)
    (h : ∃ e, q.2 texto = Except.error e) : univStep texto st q = st := by
  obtain ⟨e, he⟩ := h
  unfold univStep
  rw [he]

/-- Folding the loop over extractors that all fail changes nothing. -/
lemma foldl_univStep_error (texto : String) :
    ∀ (procs : List (String × Extrator)) (st : UnivState),
      (∀ p ∈ procs, ∃ e, p.2 texto = Except.error e) →
      procs.foldl (univStep texto) st = st
  | [], _, _ => rfl
  | q :: qs, st, h => by
    rw [List.foldl_cons, univStep_error texto st q (h q (List.mem_cons_self _ _))]
    exact foldl_univStep_error texto qs st fun p hp => h p (List.mem_cons_of_mem _ hp)

/-- C1: if every registered extractor raises on the input text, the
per-extractor arbitration loop of processar_extrato_universal raises
nothing itself (it is a total function of the loop state) and ends in the
initial state: empty result table, score -1, institution label NENHUM;
moreover a single raising extractor never aborts the run of the
remaining extractors (removing it from the registry gives the same
result). -/
theorem C1_orquestrador_robusto :
    (∀ (procs : List (String × Extrator)) (texto : String),
      (∀ p ∈ procs, ∃ e, p.2 texto = Except.error e) →
      processar_extrato_universal procs texto = ⟨[], -1, "NENHUM"⟩) ∧
    (∀ (pre post : List (String × Extrator)) (nm : String) (bad : Extrator) (texto : String),
      (∃ e, bad texto = Except.error e) →
      processar_extrato_universal (pre ++ (nm, bad) :: post) texto =
        processar_extrato_universal (pre ++ post) texto) := by
  constructor
  · intro procs texto h
    exact foldl_univStep_error texto procs _ h
  · intro pre post nm bad texto h
    unfold processar_extrato_universal
    rw [List.foldl_append, List.foldl_append, List.foldl_cons,
      univStep_error texto _ (nm, bad) h]

/-- Witness for C1: a one-extractor registry whose extractor always
raises yields the empty table and the NENHUM label. -/
theorem C1_witness :
    processar_extrato_universal [("BB", fun _ => Except.error "falha")] "texto" =
      ⟨[], -1, "NENHUM"⟩ :=
  C1_orquestrador_robusto.1 [("BB", fun _ => Except.error "falha")] "texto" (by
    intro p hp
    simp only [List.mem_singleton] at hp
    subst hp
    exact ⟨"falha", rfl⟩)

/-- C2: a line whose stripped and lowered text matches at least one
exception pattern is never classified as noise by linha_parece_sujo,
whatever junk patterns it also matches: the exception check comes first
and returns immediately. -/
theorem C2_excecoes_prevalecem (linha : String)
    (h : anyExcecao (pyLower (pyStrip linha)) = true) :
    linha_parece_sujo linha = false := by
  unfold linha_parece_sujo
  by_cases he : linha = ""
  · rw [he] at h
    exact absurd h (by decide)
  · simp [he, h]

/-- Witness for C2: the line tarifa saldo matches the tarifa exception
and the spaced-saldo junk pattern, and is not noise. -/
theorem C2_witness :
    anyExcecao (pyLower (pyStrip "tarifa saldo")) = true ∧
    anyLixo (pyLower (pyStrip "tarifa saldo")) = true ∧
    linha_parece_sujo "tarifa saldo" = false :=
  ⟨by decide, by decide, C2_excecoes_prevalecem "tarifa saldo" (by decide)⟩

/-- Counterexample for C8: a whitespace-only (but nonempty) line is NOT
classified as noise, against the claim: the Python truthiness test only
catches the empty string, and the stripped text matches no junk
pattern. -/
theorem C8_counterexample : linha_parece_sujo " " = false := by decide

/-- C8 (amended): the empty string is classified as noise, but a
whitespace-only nonempty line is classified as NOT noise (its stripped
text is empty and no junk pattern matches the empty string). -/
theorem C8_amended :
    linha_parece_sujo "" = true ∧
    ∀ s : String, s ≠ "" → (∀ c ∈ s.data, isSpaceCh c = true) →
      linha_parece_sujo s = false := by
  refine ⟨by decide, ?_⟩
  intro s hne hsp
  unfold linha_parece_sujo
  rw [if_neg hne]
  have h1 : s.data.dropWhile isSpaceCh = [] := List.dropWhile_eq_nil_iff.2 hsp
  have hstrip : pyStrip s = "" := by
    unfold pyStrip
    rw [h1]
    rfl
  rw [hstrip]
  decide

/-- Witness for C8 (amended): the single-space line. -/
theorem C8_witness : linha_parece_sujo " " = false :=
  C8_amended.2 " " (by decide) (by decide)

/-- Counterexample for C9: on a null (non-string) input the entry point
linha_parece_sujo does NOT propagate a hard failure; the isinstance test
makes it return True (noise), an ok value. -/
theorem C9_counterexample : linha_parece_sujoE none = Except.ok true := rfl

/-- C9 (amended): linha_parece_sujo never raises, on any input including
null; a null input is silently classified as noise (True) instead of
failing fast. -/
theorem C9_amended :
    ∀ o : Option String, ∃ b : Bool,
      linha_parece_sujoE o = Except.ok b ∧ (o = none → b = true) := by
  intro o
  refine ⟨linha_parece_sujoPy o, rfl, ?_⟩
  intro h
  subst h
  rfl

/-- Witness for C9 (amended): instantiation at the null input. -/
theorem C9_witness :
    ∃ b : Bool, linha_parece_sujoE none = Except.ok b ∧
      ((none : Option String) = none → b = true) :=
  C9_amended none

end Extrato
namespace Extrato

lemma many1Go_of (p : Char → Bool) (k : MSt → Bool) :
    ∀ (ds : List Char) (d : Char) (rest : List Char),
      ds.all p = true → k ⟨some (ds.getLastD d), rest⟩ = true →
      many1Go p k (ds ++ rest) d = true
  | [], d, rest, _, hk => by
    unfold many1Go
    simp only [List.nil_append, List.getLastD_nil] at hk ⊢
    rw [hk]
    simp
  | c :: cs, d, rest, hall, hk => by
    unfold many1Go
    simp only [List.cons_append]
    simp only [List.all_cons, Bool.and_eq_true] at hall
    rw [List.getLastD_cons] at hk
    have ih := many1Go_of p k cs c rest hall.2 hk
    rw [hall.1, ih]
    simp

lemma pMany1_of (p : Char → Bool) (k : MSt → Bool) (prev : Option Char)
    (d : Char) (ds rest : List Char)
    (h2 : (d :: ds).all p = true)
    (hk : k ⟨some (ds.getLastD d), rest⟩ = true) :
    pMany1 p ⟨prev, (d :: ds) ++ rest⟩ k = true := by
  unfold pMany1
  simp only [List.cons_append]
  simp only [List.all_cons, Bool.and_eq_true] at h2
  rw [h2.1, many1Go_of p k ds d rest h2.2 hk]
  simp

lemma valorPat_accepts (ds fs : List Char) (h1 : ds ≠ []) (h2 : ds.all isDigitCh = true)
    (hf : fs = [] ∨ (∃ f1, fs = ['.', f1] ∧ isDigitCh f1 = true) ∨
      (∃ f1 f2, fs = ['.', f1, f2] ∧ isDigitCh f1 = true ∧ isDigitCh f2 = true)) :
    reSearch valorRegexPat ⟨ds ++ fs⟩ = true := by
  obtain ⟨d, ds2, rfl⟩ : ∃ d ds2, ds = d :: ds2 := by
    cases ds with
    | nil => exact absurd rfl h1
    | cons d ds2 => exact ⟨d, ds2, rfl⟩
  unfold reSearch searchGo
  rw [Bool.or_eq_true]
  left
  unfold valorRegexPat pCat
  simp only [List.foldr_cons, List.foldr_nil]
  unfold pSeq pBos
  simp only [Option.isNone_none, Bool.true_and]
  apply pMany1_of
  · exact h2
  · -- continuation after the digits: optional fraction then end of string
    rcases hf with rfl | ⟨f1, rfl, hf1⟩ | ⟨f1, f2, rfl, hf1, hf2⟩
    · simp [pOpt, pEos, pEps]
    · simp [pOpt, pEos, pEps, pch, pCls, hf1]
    · simp [pOpt, pEos, pEps, pch, pCls, hf1, hf2]

end Extrato

namespace Extrato

/-! ## Claim C3: the spec-worded characterization of clean_value_str. -/

/-- Modelled from the claim wording for comparison: the transform as the
spec describes it, stripping only a LEADING R$ (the source deletes every
occurrence), then removing no-break and regular spaces and sign markers,
deleting dots and rewriting commas to dots. -/
def specTransform (s : String) : String :=
  let l0 := (pyStrip s).data
  let l1 := if l0.take 2 = ['R', '$'] then l0.drop 2 else l0
  let l2 := l1.filter fun c => c ≠ ' '
  let l3 := l2.filter fun c => c ≠ ' '
  let l4 := l3.filter fun c => c ≠ '-'
  let l5 := l4.filter fun c => c ≠ '.'
  ⟨l5.map fun c => if c = ',' then '.' else c⟩

/-- The claim-worded acceptance: numeric exactly when the spec transform
matches the validation regex. -/
def specClean (s : String) : Option String :=
  if s = "" then none
  else if reSearch valorRegexPat (specTransform s) then some (specTransform s) else none

/-- Counterexample for C3: the source deletes EVERY occurrence of R$,
not only a leading one, so the input 12R$,34 is accepted by
clean_value_str (value 12.34) while the claimed characterization
rejects it. -/
theorem C3_counterexample :
    clean_value_str "12R$,34" = some "12.34" ∧ specClean "12R$,34" = none :=
  ⟨by decide, by decide⟩

/-- C3 (amended): clean_value_str returns the transformed numeric string
exactly for the inputs whose transform — deleting EVERY occurrence of
R$, all spaces, no-break spaces and minus signs, deleting dots and
rewriting commas to dots — matches the validation regex, and null for
every other string; in particular 1.234,5 parses to 1234.5 and 12,345
gives null. -/
theorem C3_amended :
    (∀ s : String, clean_value_str s =
      if s ≠ "" ∧ reSearch valorRegexPat (codeTransform s) = true
      then some (codeTransform s) else none) ∧
    clean_value_str "1.234,5" = some "1234.5" ∧
    pyFloat "1234.5" = some (2469 / 2) ∧
    clean_value_str "12,345" = none := by
  refine ⟨?_, by decide, ?_, by decide⟩
  · intro s
    unfold clean_value_str
    by_cases he : s = ""
    · simp [he]
    · by_cases hm : reSearch valorRegexPat (codeTransform s) = true
      · simp [he, hm]
      · simp [he, hm]
  · have h : numParts "1234.5".data = some (1234, 5, 1) := by decide
    unfold pyFloat
    rw [h]
    simp only [Option.map_some', Option.some.injEq]
    unfold ratOfParts
    norm_num

/-- Witness for C3 (amended): the characterization applied at the input
R$ 1.234,56, whose transform is accepted. -/
theorem C3_witness :
    clean_value_str "R$ 1.234,56" =
      (if "R$ 1.234,56" ≠ "" ∧
          reSearch valorRegexPat (codeTransform "R$ 1.234,56") = true
       then some (codeTransform "R$ 1.234,56") else none) :=
  C3_amended.1 "R$ 1.234,56"

/-- C10: clean_value_str deletes every dot before validating, so any
nonempty input whose transform is a plain digit run is accepted, with
the dots simply gone; in particular the dot-as-decimal input 12.34 is
accepted as 1234 (one hundred times the intended value), and 1.2.3,45
is accepted as 123.45. -/
theorem C10_pontos_apagados :
    (∀ s : String, s ≠ "" → (codeTransform s).data ≠ [] →
      (codeTransform s).data.all isDigitCh = true →
      clean_value_str s = some (codeTransform s)) ∧
    clean_value_str "12.34" = some "1234" ∧
    pyFloat "1234" = some 1234 ∧
    clean_value_str "1.2.3,45" = some "123.45" ∧
    pyFloat "123.45" = some (2469 / 20) := by
  refine ⟨?_, by decide, ?_, by decide, ?_⟩
  · intro s hne hd hall
    unfold clean_value_str
    rw [if_neg hne]
    have hacc : reSearch valorRegexPat (codeTransform s) = true := by
      have := valorPat_accepts (codeTransform s).data [] hd hall (Or.inl rfl)
      simpa using this
    simp [hacc]
  · have h : numParts "1234".data = some (1234, 0, 0) := by decide
    unfold pyFloat
    rw [h]
    simp only [Option.map_some', Option.some.injEq]
    unfold ratOfParts
    norm_num
  · have h : numParts "123.45".data = some (123, 45, 2) := by decide
    unfold pyFloat
    rw [h]
    simp only [Option.map_some', Option.some.injEq]
    unfold ratOfParts
    norm_num

/-- Witness for C10: the general digit-run acceptance applied at the
input 12.34. -/
theorem C10_witness :
    clean_value_str "12.34" = some (codeTransform "12.34") :=
  C10_pontos_apagados.1 "12.34" (by decide) (by decide) (by decide)

end Extrato

namespace Extrato

/-- C5: every row of every table produced by normalizar_transacoes, for
any candidate list whatsoever, carries a non-negative amount, and its
direction field is exactly C or D — sign lives only in the direction
flag. -/
theorem C5_valor_nao_negativo (trans : List RawTrans) (r : Row)
    (h : r ∈ normalizar trans) :
    0 ≤ r.Valor ∧ (r.Tipo = "C" ∨ r.Tipo = "D") := by
  obtain ⟨t, _, ht⟩ := mem_normalizar trans r h
  have hp := candToRow_props t r ht
  exact ⟨hp.1, hp.2.1⟩

/-- Witness for C5: the row produced from one concrete candidate. -/
theorem C5_witness :
    0 ≤ (⟨"01/03/2024", "PIX RECEBIDO", ratOfParts (10, 0, 0), "C", 738946⟩ : Row).Valor ∧
    ((⟨"01/03/2024", "PIX RECEBIDO", ratOfParts (10, 0, 0), "C", 738946⟩ : Row).Tipo = "C" ∨
     (⟨"01/03/2024", "PIX RECEBIDO", ratOfParts (10, 0, 0), "C", 738946⟩ : Row).Tipo = "D") := by
  have e1 := candToRow_eval ⟨"01/03/2024", "PIX RECEBIDO", "10", "C"⟩ "10" (10, 0, 0) 738946
    (by decide) (by decide) (by decide)
  have hn : normalizar [⟨"01/03/2024", "PIX RECEBIDO", "10", "C"⟩] =
      [⟨"01/03/2024", "PIX RECEBIDO", ratOfParts (10, 0, 0), "C", 738946⟩] := by
    refine normalizar_eval _ _ (by decide) (by decide) ?_ (by decide)
    simp [List.filterMap_cons, e1]
    decide
  exact C5_valor_nao_negativo [⟨"01/03/2024", "PIX RECEBIDO", "10", "C"⟩] _
    (by rw [hn]; exact List.mem_singleton.mpr rfl)

/-- Counterexample for C7: the two-row balanced table (one credit, one
debit, same day, same amount) scores 75, but adding one more valid debit
row — a strict superset of the rows, same input — drops the score to
205/3, because the balance bonus falls from 50 to 100/3; the scorer is
NOT monotone in volume. -/
theorem C7_counterexample :
    List.Sublist
      (normalizar [⟨"01/03/2024", "PIX RECEBIDO", "100,00", "C"⟩,
                   ⟨"01/03/2024", "PAGAMENTO BOLETO", "100,00", "D"⟩])
      (normalizar [⟨"01/03/2024", "PIX RECEBIDO", "100,00", "C"⟩,
                   ⟨"01/03/2024", "PAGAMENTO BOLETO", "100,00", "D"⟩,
                   ⟨"01/03/2024", "TARIFA BANCARIA", "100,00", "D"⟩]) ∧
    avaliar (normalizar [⟨"01/03/2024", "PIX RECEBIDO", "100,00", "C"⟩,
                         ⟨"01/03/2024", "PAGAMENTO BOLETO", "100,00", "D"⟩,
                         ⟨"01/03/2024", "TARIFA BANCARIA", "100,00", "D"⟩]) <
      avaliar (normalizar [⟨"01/03/2024", "PIX RECEBIDO", "100,00", "C"⟩,
                           ⟨"01/03/2024", "PAGAMENTO BOLETO", "100,00", "D"⟩]) := by
  have eC := candToRow_eval ⟨"01/03/2024", "PIX RECEBIDO", "100,00", "C"⟩
    "100.00" (100, 0, 2) 738946 (by decide) (by decide) (by decide)
  have eD := candToRow_eval ⟨"01/03/2024", "PAGAMENTO BOLETO", "100,00", "D"⟩
    "100.00" (100, 0, 2) 738946 (by decide) (by decide) (by decide)
  have eT := candToRow_eval ⟨"01/03/2024", "TARIFA BANCARIA", "100,00", "D"⟩
    "100.00" (100, 0, 2) 738946 (by decide) (by decide) (by decide)
  have h2 : normalizar [⟨"01/03/2024", "PIX RECEBIDO", "100,00", "C"⟩,
      ⟨"01/03/2024", "PAGAMENTO BOLETO", "100,00", "D"⟩] =
      [⟨"01/03/2024", "PIX RECEBIDO", ratOfParts (100, 0, 2), "C", 738946⟩,
       ⟨"01/03/2024", "PAGAMENTO BOLETO", ratOfParts (100, 0, 2), "D", 738946⟩] := by
    refine normalizar_eval _ _ (by decide) (by decide) ?_ (by decide)
    simp [List.filterMap_cons, eC, eD]
    decide
  have h3 : normalizar [⟨"01/03/2024", "PIX RECEBIDO", "100,00", "C"⟩,
      ⟨"01/03/2024", "PAGAMENTO BOLETO", "100,00", "D"⟩,
      ⟨"01/03/2024", "TARIFA BANCARIA", "100,00", "D"⟩] =
      [⟨"01/03/2024", "PIX RECEBIDO", ratOfParts (100, 0, 2), "C", 738946⟩,
       ⟨"01/03/2024", "PAGAMENTO BOLETO", ratOfParts (100, 0, 2), "D", 738946⟩,
       ⟨"01/03/2024", "TARIFA BANCARIA", ratOfParts (100, 0, 2), "D", 738946⟩] := by
    refine normalizar_eval _ _ (by decide) (by decide) ?_ (by decide)
    simp [List.filterMap_cons, eC, eD, eT]
    decide
  rw [h2, h3]
  constructor
  · exact List.Sublist.cons₂ _ (List.Sublist.cons₂ _ (List.nil_sublist _))
  · have hA : avaliar [⟨"01/03/2024", "PIX RECEBIDO", ratOfParts (100, 0, 2), "C", 738946⟩,
        ⟨"01/03/2024", "PAGAMENTO BOLETO", ratOfParts (100, 0, 2), "D", 738946⟩] = 75 := by
      simp only [avaliar, scoreVolSpan, spanDias, dataDts, varValor, mediaValor, propTipo,
        List.isEmpty, List.map, List.filter, List.length, listMax, listMin, List.sum, ratOfParts]
      norm_num
    have hB : avaliar [⟨"01/03/2024", "PIX RECEBIDO", ratOfParts (100, 0, 2), "C", 738946⟩,
        ⟨"01/03/2024", "PAGAMENTO BOLETO", ratOfParts (100, 0, 2), "D", 738946⟩,
        ⟨"01/03/2024", "TARIFA BANCARIA", ratOfParts (100, 0, 2), "D", 738946⟩] = 205 / 3 := by
      simp only [avaliar, scoreVolSpan, spanDias, dataDts, varValor, mediaValor, propTipo,
        List.isEmpty, List.map, List.filter, List.length, listMax, listMin, List.sum, ratOfParts]
      norm_num
      rw [abs_of_nonneg (by norm_num)]
      norm_num
    rw [hA, hB]
    norm_num

/-- C7 (amended): the volume and date-span terms of the score are
monotone in volume — a table containing the rows of another (sublist)
has a volume-plus-span contribution at least as large; the TOTAL score
is not monotone because the balance bonus (and the variance bonus) can
shrink when rows are added. -/
theorem C7_amended (df1 df2 : List Row) (h : List.Sublist df1 df2) :
    scoreVolSpan df1 ≤ scoreVolSpan df2 := by
  by_cases h1 : df1 = []
  · subst h1
    unfold scoreVolSpan
    simp only [List.isEmpty_nil, if_true]
    split
    · exact le_refl 0
    · positivity
  · have h2 : df2 ≠ [] := by
      intro h2
      subst h2
      exact h1 (List.sublist_nil.mp h)
    have e1 : df1.isEmpty = false := by simpa using h1
    have e2 : df2.isEmpty = false := by simpa using h2
    unfold scoreVolSpan
    rw [e1, e2]
    simp only [Bool.false_eq_true, if_false]
    have hl : df1.length ≤ df2.length := h.length_le
    have hsub : List.Sublist (dataDts df1) (dataDts df2) := h.map _
    have hs : spanDias df1 ≤ spanDias df2 := by
      unfold spanDias
      have hmax : listMax (dataDts df1) ≤ listMax (dataDts df2) :=
        listMax_mono _ _ fun a ha => hsub.subset ha
      have hdne : dataDts df1 ≠ [] := by simpa [dataDts] using h1
      have hmin : listMin (dataDts df2) ≤ listMin (dataDts df1) :=
        listMin_le_of_mem _ _ (hsub.subset (listMin_mem (dataDts df1) hdne))
      omega
    have c1 : (df1.length : ℚ) ≤ df2.length := by exact_mod_cast hl
    have c2 : (spanDias df1 : ℚ) ≤ spanDias df2 := by exact_mod_cast hs
    linarith

/-- Witness for C7 (amended): one row against the same row plus a second
day. -/
theorem C7_witness :
    scoreVolSpan [⟨"01/03/2024", "PIX RECEBIDO", 100, "C", 738946⟩] ≤
      scoreVolSpan [⟨"01/03/2024", "PIX RECEBIDO", 100, "C", 738946⟩,
                    ⟨"02/03/2024", "TARIFA", 15, "D", 738947⟩] :=
  C7_amended _ _ (List.Sublist.cons₂ _ (List.nil_sublist _))

end Extrato
namespace Extrato

/-! ## Claim C6: canonical decimal rendering of a normalized amount.

The normalized Valor column holds floats whose values are decimals with
at most two fractional digits; Python str() renders them as an integer
part, a dot, and one or two fractional digits (always at least one, so
integers render as N.0).  The rendering is reconstructed here from the
numerator and denominator of the modelling rational. -/

/-- Decimal digit character. -/
def digChar : Nat → Char
  | 0 => '0' | 1 => '1' | 2 => '2' | 3 => '3' | 4 => '4'
  | 5 => '5' | 6 => '6' | 7 => '7' | 8 => '8' | _ => '9'

/-- Decimal digits of a natural number (fuel-based so that the kernel
can evaluate it). -/
def natDigsAux (fuel n : Nat) : List Char :=
  match fuel with
  | 0 => []
  | f + 1 => if n < 10 then [digChar n] else natDigsAux f (n / 10) ++ [digChar (n % 10)]

/-- Decimal rendering of a natural number. -/
def natToStr (n : Nat) : String := ⟨natDigsAux (n + 1) n⟩

lemma digChar_digit (d : Nat) : isDigitCh (digChar d) = true := by
  unfold digChar
  split <;> decide

lemma digChar_val (d : Nat) (h : d < 10) : (digChar d).toNat - 48 = d := by
  interval_cases d <;> decide

lemma digitsToNat_append (l : List Char) (c : Char) :
    digitsToNat (l ++ [c]) = 10 * digitsToNat l + (c.toNat - 48) := by
  unfold digitsToNat
  rw [List.foldl_append]
  rfl

lemma natDigsAux_spec : ∀ (fuel n : Nat), n < fuel →
    natDigsAux fuel n ≠ [] ∧ (natDigsAux fuel n).all isDigitCh = true ∧
      digitsToNat (natDigsAux fuel n) = n
  | 0, n, h => absurd h (Nat.not_lt_zero n)
  | f + 1, n, h => by
    unfold natDigsAux
    by_cases h10 : n < 10
    · rw [if_pos h10]
      refine ⟨by simp, by simp [digChar_digit], ?_⟩
      have : digitsToNat [digChar n] = 10 * 0 + ((digChar n).toNat - 48) := rfl
      rw [this, digChar_val n h10]
      omega
    · rw [if_neg h10]
      have hf : n / 10 < f := by omega
      have hrec := natDigsAux_spec f (n / 10) hf
      refine ⟨by simp [hrec.1], ?_, ?_⟩
      · simp [List.all_append, hrec.2.1, digChar_digit]
      · rw [digitsToNat_append, hrec.2.2, digChar_val (n % 10) (by omega)]
        omega

lemma natToStr_spec (n : Nat) :
    (natToStr n).data ≠ [] ∧ (natToStr n).data.all isDigitCh = true ∧
      digitsToNat (natToStr n).data = n :=
  natDigsAux_spec (n + 1) n (Nat.lt_succ_self n)

/-- Number of cents of an amount whose denominator divides 100, via the
numerator and denominator of the rational. -/
def ratCents (q : ℚ) : Nat := q.num.toNat * (100 / q.den)

/-- Python str() of the float amount: integer part, dot, one or two
fractional digits (integers render with the fractional digit 0). -/
def ratCanonDot (q : ℚ) : String :=
  if q.den = 1 then natToStr q.num.toNat ++ ".0"
  else if ratCents q % 10 = 0 then
    natToStr (ratCents q / 100) ++ "." ++ ⟨[digChar (ratCents q % 100 / 10)]⟩
  else if ratCents q % 100 < 10 then
    natToStr (ratCents q / 100) ++ ".0" ++ ⟨[digChar (ratCents q % 100)]⟩
  else
    natToStr (ratCents q / 100) ++ "." ++
      ⟨[digChar (ratCents q % 100 / 10), digChar (ratCents q % 10)]⟩

/-- The same rendering with the Brazilian decimal comma. -/
def toCommaCh (c : Char) : Char := if c = '.' then ',' else c

/-- Amount rendered with a decimal comma instead of the dot. -/
def ratCanonComma (q : ℚ) : String := ⟨(ratCanonDot q).data.map toCommaCh⟩

/-- Re-feeding of a normalized row as a candidate, with the canonical
field shapes of the claim: date unchanged (DD/MM/YYYY), description
unchanged, amount as its canonical decimal string, direction C or D. -/
def refeedDot (r : Row) : RawTrans :=
  ⟨r.Data, r.Historico, ratCanonDot r.Valor, r.Tipo⟩

/-- Re-feeding with the amount rendered in decimal-comma form. -/
def refeedComma (r : Row) : RawTrans :=
  ⟨r.Data, r.Historico, ratCanonComma r.Valor, r.Tipo⟩

/-- The cents function agrees with one hundred times the amount. -/
lemma ratCents_eq (q : ℚ) (hq : 0 ≤ q) (hdvd : q.den ∣ 100) :
    ((ratCents q : ℕ) : ℚ) = 100 * q := by
  obtain ⟨m, hm⟩ := hdvd
  unfold ratCents
  have hpos : 0 < q.den := q.pos
  have h100 : 100 / q.den = m := by
    rw [hm]
    exact Nat.mul_div_cancel_left m hpos
  rw [h100]
  have hnum : ((q.num.toNat : ℚ)) = (q.num : ℚ) := by
    exact_mod_cast Int.toNat_of_nonneg (Rat.num_nonneg.2 hq)
  have hd : ((q.den : ℚ)) ≠ 0 := by
    exact_mod_cast Nat.pos_iff_ne_zero.1 hpos
  have hqn : (q.num : ℚ) = q * q.den := by
    have h2 := Rat.num_div_den q
    rw [div_eq_iff hd] at h2
    exact h2
  push_cast
  rw [hnum, hqn]
  have hm2 : ((q.den : ℚ)) * m = 100 := by
    exact_mod_cast congrArg (fun n : ℕ => (n : ℚ)) hm.symm
  calc q * q.den * m = q * (q.den * m) := by ring
  _ = 100 * q := by rw [hm2]; ring

/-- The denominator of a parsed decimal divides one hundred. -/
lemma ratOfParts_den_dvd (p : Nat × Nat × Nat) (hk : p.2.2 ≤ 2) :
    (ratOfParts p).den ∣ 100 := by
  obtain ⟨a, b, k⟩ := p
  simp only at hk
  have hform : ratOfParts (a, b, k) =
      Rat.divInt ((a * 10 ^ k + b : ℕ) : ℤ) ((10 ^ k : ℕ) : ℤ) := by
    rw [Rat.divInt_eq_div]
    unfold ratOfParts
    have h10 : ((10 ^ k : ℕ) : ℚ) ≠ 0 := by positivity
    field_simp
    try push_cast
    try ring
  have hdvd : ((ratOfParts (a, b, k)).den : ℤ) ∣ ((10 ^ k : ℕ) : ℤ) := by
    rw [hform]
    exact Rat.den_dvd _ _
  have hnat : (ratOfParts (a, b, k)).den ∣ 10 ^ k := by
    exact_mod_cast hdvd
  exact hnat.trans (by interval_cases k <;> decide)

end Extrato
namespace Extrato

/-! Identity lemmas for the clean_value_str transform on the canonical
comma strings (digits and one comma only). -/

lemma dropWhile_all_neg (p : Char → Bool) (l : List Char)
    (h : l.all (fun c => !p c) = true) : l.dropWhile p = l := by
  cases l with
  | nil => rfl
  | cons c cs =>
    simp only [List.all_cons, Bool.and_eq_true, Bool.not_eq_true'] at h
    simp [List.dropWhile_cons, h.1]

lemma pyStrip_id (s : String) (h : s.data.all (fun c => !isSpaceCh c) = true) :
    pyStrip s = s := by
  unfold pyStrip
  rw [dropWhile_all_neg isSpaceCh s.data h]
  rw [dropWhile_all_neg isSpaceCh s.data.reverse (by simpa using h)]
  simp

lemma delRS_id (l : List Char) (h : ∀ c ∈ l, c ≠ 'R') : delRS l = l := by
  induction l with
  | nil => rfl
  | cons c cs ih =>
    unfold delRS
    split
    · rename_i rest heq
      rw [List.cons.injEq] at heq
      exact absurd heq.1 (h c (List.mem_cons_self _ _))
    · rename_i c2 rest heq
      rw [List.cons.injEq] at heq
      rw [← heq.1, ← heq.2]
      rw [ih fun x hx => h x (List.mem_cons_of_mem _ hx)]
    · rename_i heq
      cases heq

lemma takeWhile_middle (p : Char → Bool) :
    ∀ (l : List Char) (c : Char) (r : List Char), l.all p = true → p c = false →
      (l ++ c :: r).takeWhile p = l ∧ (l ++ c :: r).dropWhile p = c :: r
  | [], c, r, _, hc => by simp [List.takeWhile_cons, List.dropWhile_cons, hc]
  | x :: xs, c, r, hall, hc => by
    simp only [List.all_cons, Bool.and_eq_true] at hall
    have ih := takeWhile_middle p xs c r hall.2 hc
    simp [List.takeWhile_cons, List.dropWhile_cons, hall.1, ih.1, ih.2]

/-- numParts on a string of the canonical shape digits dot digits. -/
lemma numParts_shape (ds fs : List Char) (h1 : ds ≠ []) (h2 : ds.all isDigitCh = true)
    (h3 : fs ≠ []) (h4 : fs.length ≤ 2) (h5 : fs.all isDigitCh = true) :
    numParts (ds ++ '.' :: fs) = some (digitsToNat ds, digitsToNat fs, fs.length) := by
  have hsplit := takeWhile_middle isDigitCh ds '.' fs h2 (by decide)
  unfold numParts
  rw [hsplit.1, hsplit.2]
  rw [if_neg (by simpa using h1)]
  show (if (fs.isEmpty || decide (2 < fs.length) || !fs.all isDigitCh) = true then none
    else some (digitsToNat ds, digitsToNat fs, fs.length)) =
    some (digitsToNat ds, digitsToNat fs, fs.length)
  have hcond : (fs.isEmpty || decide (2 < fs.length) || !fs.all isDigitCh) = false := by
    simp [h3, h5, Nat.not_lt.2 h4]
  rw [hcond]
  simp

/-- The chars of a canonical dot rendering are digits or the dot. -/
lemma ratCanonDot_chars (q : ℚ) :
    ∀ c ∈ (ratCanonDot q).data, isDigitCh c = true ∨ c = '.' := by
  have hd : ∀ n : Nat, ∀ c ∈ (natToStr n).data, isDigitCh c = true := fun n c hc =>
    List.all_eq_true.1 (natToStr_spec n).2.1 c hc
  have hstep : ∀ (n : Nat) (tail : List Char),
      (∀ c ∈ tail, isDigitCh c = true ∨ c = '.') →
      ∀ c ∈ (natToStr n).data ++ tail, isDigitCh c = true ∨ c = '.' := by
    intro n tail ht c hc
    rcases List.mem_append.1 hc with h | h
    · exact Or.inl (hd n c h)
    · exact ht c h
  unfold ratCanonDot
  split
  · intro c hc
    refine hstep _ ['.', '0'] ?_ c (by simpa [String.data_append] using hc)
    intro x hx
    simp only [List.mem_cons, List.not_mem_nil, or_false] at hx
    rcases hx with rfl | rfl
    · exact Or.inr rfl
    · exact Or.inl (by decide)
  · split
    · intro c hc
      refine hstep _ ['.', digChar (ratCents q % 100 / 10)] ?_ c
        (by simpa [String.data_append] using hc)
      intro x hx
      simp only [List.mem_cons, List.not_mem_nil, or_false] at hx
      rcases hx with rfl | rfl
      · exact Or.inr rfl
      · exact Or.inl (digChar_digit _)
    · split
      · intro c hc
        refine hstep _ ['.', '0', digChar (ratCents q % 100)] ?_ c
          (by simpa [String.data_append] using hc)
        intro x hx
        simp only [List.mem_cons, List.not_mem_nil, or_false] at hx
        rcases hx with rfl | rfl | rfl
        · exact Or.inr rfl
        · exact Or.inl (by decide)
        · exact Or.inl (digChar_digit _)
      · intro c hc
        refine hstep _ ['.', digChar (ratCents q % 100 / 10), digChar (ratCents q % 10)] ?_ c
          (by simpa [String.data_append] using hc)
        intro x hx
        simp only [List.mem_cons, List.not_mem_nil, or_false] at hx
        rcases hx with rfl | rfl | rfl
        · exact Or.inr rfl
        · exact Or.inl (digChar_digit _)
        · exact Or.inl (digChar_digit _)

end Extrato
namespace Extrato

/-- A digit character is none of the characters deleted or rewritten by
the clean_value_str transform. -/
lemma digit_props (c : Char) (h : isDigitCh c = true) :
    isSpaceCh c = false ∧ c ≠ 'R' ∧ c ≠ ' ' ∧ c ≠ ' ' ∧ c ≠ '-' ∧ c ≠ '.' ∧ c ≠ ',' := by
  refine ⟨?_, ?_, ?_, ?_, ?_, ?_, ?_⟩
  · cases hs : isSpaceCh c
    · rfl
    · exfalso
      unfold isSpaceCh at hs
      simp only [Bool.or_eq_true, decide_eq_true_eq] at hs
      rcases hs with ((((((rfl | rfl) | rfl) | rfl) | rfl) | rfl) | rfl) <;>
        exact absurd h (by decide)
  all_goals
    intro hcon
    subst hcon
    exact absurd h (by decide)

/-- Undoing the comma rewriting on digit-or-dot characters. -/
lemma comma_dot_id (l : List Char) (h : ∀ c ∈ l, isDigitCh c = true ∨ c = '.') :
    (l.map toCommaCh).map (fun c => if c = ',' then '.' else c) = l := by
  induction l with
  | nil => rfl
  | cons c cs ih =>
    simp only [List.map_cons, List.cons.injEq]
    constructor
    · rcases h c (List.mem_cons_self _ _) with hd | rfl
      · have hp := digit_props c hd
        unfold toCommaCh
        rw [if_neg hp.2.2.2.2.2.1, if_neg hp.2.2.2.2.2.2]
      · rfl
    · exact ih fun x hx => h x (List.mem_cons_of_mem _ hx)

/-- clean_value_str on the comma rendering of a canonical decimal
string: the transform restores the dot and the validation accepts. -/
lemma clean_comma (ds fs : List Char) (h1 : ds ≠ []) (h2 : ds.all isDigitCh = true)
    (h3 : fs ≠ []) (h4 : fs.length ≤ 2) (h5 : fs.all isDigitCh = true) :
    clean_value_str ⟨(ds ++ '.' :: fs).map toCommaCh⟩ = some ⟨ds ++ '.' :: fs⟩ := by
  have hchars : ∀ c ∈ ds ++ '.' :: fs, isDigitCh c = true ∨ c = '.' := by
    intro c hc
    rcases List.mem_append.1 hc with h | h
    · exact Or.inl (List.all_eq_true.1 h2 c h)
    · rcases List.mem_cons.1 h with rfl | h
      · exact Or.inr rfl
      · exact Or.inl (List.all_eq_true.1 h5 c h)
  have hmapped : ∀ c ∈ (ds ++ '.' :: fs).map toCommaCh, isDigitCh c = true ∨ c = ',' := by
    intro c hc
    obtain ⟨x, hx, rfl⟩ := List.mem_map.1 hc
    rcases hchars x hx with hd | rfl
    · have hp := digit_props x hd
      unfold toCommaCh
      rw [if_neg hp.2.2.2.2.2.1]
      exact Or.inl hd
    · exact Or.inr rfl
  have htr : codeTransform ⟨(ds ++ '.' :: fs).map toCommaCh⟩ = ⟨ds ++ '.' :: fs⟩ := by
    unfold codeTransform
    have hstrip : pyStrip ⟨(ds ++ '.' :: fs).map toCommaCh⟩ = ⟨(ds ++ '.' :: fs).map toCommaCh⟩ := by
      apply pyStrip_id
      rw [List.all_eq_true]
      intro c hc
      rcases hmapped c hc with hd | rfl
      · simp [(digit_props c hd).1]
      · decide
    rw [hstrip]
    have hrs : delRS ((ds ++ '.' :: fs).map toCommaCh) = (ds ++ '.' :: fs).map toCommaCh := by
      apply delRS_id
      intro c hc
      rcases hmapped c hc with hd | rfl
      · exact (digit_props c hd).2.1
      · decide
    rw [hrs]
    have hf1 : ((ds ++ '.' :: fs).map toCommaCh).filter (fun c => c ≠ ' ') =
        (ds ++ '.' :: fs).map toCommaCh := by
      rw [List.filter_eq_self]
      intro c hc
      rcases hmapped c hc with hd | rfl
      · simp [(digit_props c hd).2.2.2.1]
      · decide
    have hf2 : ((ds ++ '.' :: fs).map toCommaCh).filter (fun c => c ≠ ' ') =
        (ds ++ '.' :: fs).map toCommaCh := by
      rw [List.filter_eq_self]
      intro c hc
      rcases hmapped c hc with hd | rfl
      · simp [(digit_props c hd).2.2.1]
      · decide
    have hf3 : ((ds ++ '.' :: fs).map toCommaCh).filter (fun c => c ≠ '-') =
        (ds ++ '.' :: fs).map toCommaCh := by
      rw [List.filter_eq_self]
      intro c hc
      rcases hmapped c hc with hd | rfl
      · simp [(digit_props c hd).2.2.2.2.1]
      · decide
    have hf4 : ((ds ++ '.' :: fs).map toCommaCh).filter (fun c => c ≠ '.') =
        (ds ++ '.' :: fs).map toCommaCh := by
      rw [List.filter_eq_self]
      intro c hc
      rcases hmapped c hc with hd | rfl
      · simp [(digit_props c hd).2.2.2.2.2.1]
      · decide
    rw [hf1, hf2, hf3, hf4]
    rw [comma_dot_id _ hchars]
  have hne : (⟨(ds ++ '.' :: fs).map toCommaCh⟩ : String) ≠ "" := by
    intro hcon
    have h0 := congrArg String.data hcon
    cases ds with
    | nil => exact h1 rfl
    | cons x xs => simp at h0
  have hacc : reSearch valorRegexPat ⟨ds ++ '.' :: fs⟩ = true := by
    rcases fs with _ | ⟨f1, _ | ⟨f2, _ | ⟨f3, rest⟩⟩⟩
    · exact absurd rfl h3
    · exact valorPat_accepts ds ['.', f1] h1 h2
        (Or.inr (Or.inl ⟨f1, rfl, List.all_eq_true.1 h5 f1 (by simp)⟩))
    · exact valorPat_accepts ds ['.', f1, f2] h1 h2
        (Or.inr (Or.inr ⟨f1, f2, rfl, List.all_eq_true.1 h5 f1 (by simp),
          List.all_eq_true.1 h5 f2 (by simp)⟩))
    · exfalso
      simp only [List.length_cons] at h4
      omega
  unfold clean_value_str
  rw [if_neg hne, htr]
  simp [hacc]


end Extrato
namespace Extrato

lemma digitsToNat_one (v : Nat) (h : v < 10) : digitsToNat [digChar v] = v := by
  have he : digitsToNat [digChar v] = 10 * 0 + ((digChar v).toNat - 48) := rfl
  rw [he, digChar_val v h]
  omega

lemma digitsToNat_zero_one (b : Nat) (hb : b < 10) : digitsToNat ['0', digChar b] = b := by
  have he : digitsToNat ['0', digChar b] =
      10 * (10 * 0 + ('0'.toNat - 48)) + ((digChar b).toNat - 48) := rfl
  have h0 : '0'.toNat - 48 = 0 := by decide
  rw [he, h0, digChar_val b hb]
  omega

lemma digitsToNat_two (a b : Nat) (ha : a < 10) (hb : b < 10) :
    digitsToNat [digChar a, digChar b] = 10 * a + b := by
  have he : digitsToNat [digChar a, digChar b] =
      10 * (10 * 0 + ((digChar a).toNat - 48)) + ((digChar b).toNat - 48) := rfl
  rw [he, digChar_val a ha, digChar_val b hb]
  omega

/-- Decomposition of the canonical dot rendering: some digits, a dot,
and one or two fractional digits, whose parsed value is the amount
itself. -/
lemma ratCanonDot_shape (q : ℚ) (hq : 0 ≤ q) (hdvd : q.den ∣ 100) :
    ∃ ds fs, (ratCanonDot q).data = ds ++ '.' :: fs ∧ ds ≠ [] ∧ ds.all isDigitCh = true ∧
      fs ≠ [] ∧ fs.length ≤ 2 ∧ fs.all isDigitCh = true ∧
      ratOfParts (digitsToNat ds, digitsToNat fs, fs.length) = q := by
  have hc := ratCents_eq q hq hdvd
  have h100 : (100 : ℚ) ≠ 0 := by norm_num
  unfold ratCanonDot
  split
  · rename_i hden
    refine ⟨(natToStr q.num.toNat).data, ['0'], ?_, (natToStr_spec _).1,
      (natToStr_spec _).2.1, by simp, by simp, by decide, ?_⟩
    · simp [String.data_append]
    · have hn2 : ((q.num.toNat : ℚ)) = q := by
        have h2 := Rat.num_div_den q
        rw [hden] at h2
        simp only [Nat.cast_one, div_one] at h2
        have h3 : ((q.num.toNat : ℚ)) = ((q.num : ℤ) : ℚ) := by
          exact_mod_cast Int.toNat_of_nonneg (Rat.num_nonneg.2 hq)
        rw [h3, h2]
      have h0 : digitsToNat ['0'] = 0 := by decide
      unfold ratOfParts
      simp only [(natToStr_spec q.num.toNat).2.2, h0]
      rw [hn2]
      norm_num
  · split
    · rename_i hden hm10
      have hv : ratCents q % 100 / 10 < 10 := by omega
      refine ⟨(natToStr (ratCents q / 100)).data, [digChar (ratCents q % 100 / 10)],
        ?_, (natToStr_spec _).1, (natToStr_spec _).2.1, by simp, by simp,
        by simp [digChar_digit], ?_⟩
      · simp [String.data_append]
      · apply mul_left_cancel₀ h100
        rw [(natToStr_spec (ratCents q / 100)).2.2]
        simp only [digitsToNat_one _ hv, List.length_cons, List.length_nil]
        calc (100 : ℚ) * ratOfParts (ratCents q / 100, ratCents q % 100 / 10, 0 + 1) =
            ((100 * (ratCents q / 100) + 10 * (ratCents q % 100 / 10) : ℕ) : ℚ) := by
              unfold ratOfParts
              push_cast
              ring
          _ = ((ratCents q : ℕ) : ℚ) := by
              congr 1
              omega
          _ = 100 * q := hc
    · split
      · rename_i hden hm10 hlt
        have hv : ratCents q % 100 < 10 := hlt
        refine ⟨(natToStr (ratCents q / 100)).data, ['0', digChar (ratCents q % 100)],
          ?_, (natToStr_spec _).1, (natToStr_spec _).2.1, by simp, by simp,
          by simp [show isDigitCh '0' = true from by decide, digChar_digit], ?_⟩
        · simp [String.data_append]
        · apply mul_left_cancel₀ h100
          rw [(natToStr_spec (ratCents q / 100)).2.2]
          simp only [digitsToNat_zero_one _ hv, List.length_cons, List.length_nil]
          calc (100 : ℚ) * ratOfParts (ratCents q / 100, ratCents q % 100, 0 + 1 + 1) =
              ((100 * (ratCents q / 100) + (ratCents q % 100) : ℕ) : ℚ) := by
                unfold ratOfParts
                push_cast
                ring
            _ = ((ratCents q : ℕ) : ℚ) := by
                congr 1
                omega
            _ = 100 * q := hc
      · rename_i hden hm10 hge
        have ha : ratCents q % 100 / 10 < 10 := by omega
        have hb : ratCents q % 10 < 10 := by omega
        refine ⟨(natToStr (ratCents q / 100)).data,
          [digChar (ratCents q % 100 / 10), digChar (ratCents q % 10)],
          ?_, (natToStr_spec _).1, (natToStr_spec _).2.1, by simp, by simp,
          by simp [digChar_digit], ?_⟩
        · simp [String.data_append]
        · apply mul_left_cancel₀ h100
          rw [(natToStr_spec (ratCents q / 100)).2.2]
          simp only [digitsToNat_two _ _ ha hb, List.length_cons, List.length_nil]
          calc (100 : ℚ) * ratOfParts (ratCents q / 100,
                10 * (ratCents q % 100 / 10) + ratCents q % 10, 0 + 1 + 1) =
              ((100 * (ratCents q / 100) + (10 * (ratCents q % 100 / 10) + ratCents q % 10) : ℕ) : ℚ) := by
                unfold ratOfParts
                push_cast
                ring
            _ = ((ratCents q : ℕ) : ℚ) := by
                congr 1
                omega
            _ = 100 * q := hc

/-- Round trip: the comma rendering of a normalized amount cleans to the
dot rendering, and the dot rendering parses back to the amount. -/
lemma refeed_roundtrip (q : ℚ) (hq : 0 ≤ q) (hdvd : q.den ∣ 100) :
    clean_value_str (ratCanonComma q) = some (ratCanonDot q) ∧
    pyFloat (ratCanonDot q) = some q := by
  obtain ⟨ds, fs, hdata, h1, h2, h3, h4, h5, hval⟩ := ratCanonDot_shape q hq hdvd
  constructor
  · have hcomma : ratCanonComma q = ⟨(ds ++ '.' :: fs).map toCommaCh⟩ := by
      unfold ratCanonComma
      rw [hdata]
    have hdot : (⟨ds ++ '.' :: fs⟩ : String) = ratCanonDot q := by
      rw [← hdata]
    rw [hcomma, clean_comma ds fs h1 h2 h3 h4 h5, hdot]
  · unfold pyFloat
    rw [hdata, numParts_shape ds fs h1 h2 h3 h4 h5]
    simp only [Option.map_some', Option.some.injEq]
    exact hval

end Extrato
namespace Extrato

/-- An amount one hundred times which is an integer has denominator
dividing one hundred. -/
lemma den_dvd_100 (q : ℚ) (h : ((100 : ℚ) * q).den = 1) : q.den ∣ 100 := by
  have h1 : (((100 * q).num : ℤ) : ℚ) = 100 * q := by
    conv_rhs => rw [← Rat.num_div_den (100 * q)]
    rw [h]
    simp
  have h2 : q = Rat.divInt (100 * q).num 100 := by
    rw [Rat.divInt_eq_div, h1]
    ring
  have h3 : ((Rat.divInt (100 * q).num 100).den : ℤ) ∣ 100 := Rat.den_dvd _ _
  rw [← h2] at h3
  exact_mod_cast h3

/-- Re-feeding a normalized row in comma form is accepted and
reconstructs the row exactly. -/
lemma candToRow_refeed (r : Row) (hv : 0 ≤ r.Valor) (hdvd : r.Valor.den ∣ 100)
    (htipo : r.Tipo = "C" ∨ r.Tipo = "D") (hdate : parseDateOrd r.Data = some r.dataDt) :
    candToRow (refeedComma r) = some r := by
  obtain ⟨hclean, hfloat⟩ := refeed_roundtrip r.Valor hv hdvd
  obtain ⟨a, b, v, t, o⟩ := r
  simp only at hv hdvd htipo hdate hclean hfloat
  unfold candToRow refeedComma
  simp only
  rw [hclean]
  simp only [Option.some_bind]
  rw [hfloat]
  simp only [Option.some_bind]
  rw [hdate]
  simp only [Option.map_some', Option.some.injEq]
  rcases htipo with ht | ht <;> subst ht
  · simp [show pyStartswith (pyUpper "C") "D" = false from by decide]
  · simp [show pyStartswith (pyUpper "D") "D" = true from by decide]

lemma filterMap_refeed (rows : List Row)
    (h : ∀ r ∈ rows, candToRow (refeedComma r) = some r) :
    (rows.map refeedComma).filterMap candToRow = rows := by
  induction rows with
  | nil => rfl
  | cons r rs ih =>
    simp only [List.map_cons, List.filterMap_cons, h r (List.mem_cons_self _ _)]
    rw [ih fun x hx => h x (List.mem_cons_of_mem _ hx)]

/-- C6 (amended): re-feeding an already-normalized table as candidates
with the dates and directions unchanged and the amounts rendered with a
decimal COMMA yields the same table (stated for tables with pairwise
distinct dates, where ascending order determines the table uniquely
whatever tie order the library sort uses).  With the canonical DOT
string of the claim the dot is deleted as a thousands separator and
idempotence fails, see the counterexample. -/
theorem C6_amended (cands : List RawTrans)
    (_hdist : List.Pairwise (fun a b : Row => a.dataDt < b.dataDt) (normalizar cands)) :
    normalizar ((normalizar cands).map refeedComma) = normalizar cands := by
  have hinv : ∀ r ∈ normalizar cands, candToRow (refeedComma r) = some r ∧
      clean_value_str (ratCanonComma r.Valor) = some (ratCanonDot r.Valor) ∧
      pyFloat (ratCanonDot r.Valor) = some r.Valor := by
    intro r hr
    obtain ⟨t, _, ht⟩ := mem_normalizar cands r hr
    have hp := candToRow_props t r ht
    have hdvd := den_dvd_100 _ hp.2.2.1
    obtain ⟨hclean, hfloat⟩ := refeed_roundtrip r.Valor hp.1 hdvd
    exact ⟨candToRow_refeed r hp.1 hdvd hp.2.1 hp.2.2.2.1, hclean, hfloat⟩
  by_cases hnil : normalizar cands = []
  · rw [hnil]
    rfl
  · apply normalizar_eval
    · cases hmap : (normalizar cands).map refeedComma with
      | nil => exact absurd (List.map_eq_nil_iff.mp hmap) hnil
      | cons x xs => rfl
    · rw [List.filterMap_map]
      rw [List.any_eq_false]
      intro p hp
      obtain ⟨r, hr, hfr⟩ := List.mem_filterMap.1 hp
      have hx := (hinv r hr).2.1
      simp only [Function.comp_apply, refeedComma] at hfr
      rw [hx] at hfr
      simp only [Option.map_some', Option.some.injEq] at hfr
      rw [← hfr]
      simp [(hinv r hr).2.2]
    · exact filterMap_refeed _ fun r hr => (hinv r hr).1
    · exact normalizar_sorted cands

end Extrato
namespace Extrato

/-- Counterexample for C6: normalization is NOT idempotent under the
canonical dot shape.  The candidate 1.234,56 normalizes to the amount
1234.56; re-feeding that row with its canonical decimal string 1234.56
makes clean_value_str delete the dot (thousands separator), so the row
comes back with amount 123456 — one hundred times larger — and the
table changes. -/
theorem C6_counterexample :
    normalizar ((normalizar [⟨"01/03/2024", "PAGAMENTO DE BOLETO", "1.234,56", "C"⟩]).map
        refeedDot) ≠
      normalizar [⟨"01/03/2024", "PAGAMENTO DE BOLETO", "1.234,56", "C"⟩] := by
  have e1 := candToRow_eval ⟨"01/03/2024", "PAGAMENTO DE BOLETO", "1.234,56", "C"⟩
    "1234.56" (1234, 56, 2) 738946 (by decide) (by decide) (by decide)
  have h1 : normalizar [⟨"01/03/2024", "PAGAMENTO DE BOLETO", "1.234,56", "C"⟩] =
      [⟨"01/03/2024", "PAGAMENTO DE BOLETO", ratOfParts (1234, 56, 2), "C", 738946⟩] := by
    refine normalizar_eval _ _ (by decide) (by decide) ?_ (by decide)
    simp [List.filterMap_cons, e1]
    decide
  have hqv : ratOfParts (1234, 56, 2) = (⟨30864, 25, by decide, by decide⟩ : ℚ) := by
    have hmk : ((⟨30864, 25, by decide, by decide⟩ : ℚ)) = (30864 : ℚ) / 25 := by
      rw [Rat.mk'_eq_divInt, Rat.divInt_eq_div]
      norm_num
    rw [hmk]
    unfold ratOfParts
    norm_num
  have h2 : ratCanonDot (ratOfParts (1234, 56, 2)) = "1234.56" := by
    rw [hqv]
    decide
  have h3 : (normalizar [⟨"01/03/2024", "PAGAMENTO DE BOLETO", "1.234,56", "C"⟩]).map refeedDot =
      [⟨"01/03/2024", "PAGAMENTO DE BOLETO", "1234.56", "C"⟩] := by
    rw [h1]
    simp only [List.map_cons, List.map_nil, refeedDot, h2]
  have e2 := candToRow_eval ⟨"01/03/2024", "PAGAMENTO DE BOLETO", "1234.56", "C"⟩
    "123456" (123456, 0, 0) 738946 (by decide) (by decide) (by decide)
  have h4 : normalizar [⟨"01/03/2024", "PAGAMENTO DE BOLETO", "1234.56", "C"⟩] =
      [⟨"01/03/2024", "PAGAMENTO DE BOLETO", ratOfParts (123456, 0, 0), "C", 738946⟩] := by
    refine normalizar_eval _ _ (by decide) (by decide) ?_ (by decide)
    simp [List.filterMap_cons, e2]
    decide
  rw [h3, h4, h1]
  intro hcon
  rw [List.cons.injEq] at hcon
  have hv := congrArg Row.Valor hcon.1
  simp only at hv
  unfold ratOfParts at hv
  norm_num at hv

/-- Witness for C6 (amended): the comma re-feeding of the one-row table
reproduces it. -/
theorem C6_witness :
    normalizar ((normalizar [⟨"01/03/2024", "PAGAMENTO DE BOLETO", "1.234,56", "C"⟩]).map
        refeedComma) =
      normalizar [⟨"01/03/2024", "PAGAMENTO DE BOLETO", "1.234,56", "C"⟩] := by
  apply C6_amended
  have e1 := candToRow_eval ⟨"01/03/2024", "PAGAMENTO DE BOLETO", "1.234,56", "C"⟩
    "1234.56" (1234, 56, 2) 738946 (by decide) (by decide) (by decide)
  have h1 : normalizar [⟨"01/03/2024", "PAGAMENTO DE BOLETO", "1.234,56", "C"⟩] =
      [⟨"01/03/2024", "PAGAMENTO DE BOLETO", ratOfParts (1234, 56, 2), "C", 738946⟩] := by
    refine normalizar_eval _ _ (by decide) (by decide) ?_ (by decide)
    simp [List.filterMap_cons, e1]
    decide
  rw [h1]
  exact List.pairwise_singleton _ _

end Extrato
